import Mathlib

/-!
Verification of the impl-tools core: the extended field-list model of
`lib/src/default.rs` (fields with an optional `= expr` default-value suffix,
their parser and printer, and the `#[impl_default]` handler) and the three
capability generators of `lib/src/autoimpl/impl_misc.rs` (Clone, Debug,
Default).

Types, expressions, attributes and where-clause predicates are parsed by the
external `syn` crate and never inspected by this code; they are modelled as
opaque atoms carrying a numeric payload.  Token streams are modelled as lists
of token trees, with brace and parenthesis groups as single nodes, mirroring
`proc_macro2::TokenStream`.
-/

namespace ImplTools

/-- One token tree of the modelled token stream.  Opaque pieces that the
source hands to `syn` as a whole (a type, an expression, an outer attribute,
the predicate list of a where-clause) are single atoms. -/
inductive Tok where
  | attrTok (n : Nat)
  | kwPub
  | identTok (s : String)
  | colon
  | comma
  | semi
  | eq
  | kwWhere
  | wherePreds (n : Nat)
  | tyTok (n : Nat)
  | exprTok (n : Nat)
  | braceGroup (inner : List Tok)
  | parenGroup (inner : List Tok)
  deriving Repr

/-- syn Visibility as read by the field parser: `pub` or inherited (empty). -/
inductive Vis where
  | inherited
  | pub_
  deriving Repr, DecidableEq

/-- Field of `default.rs`: attributes, visibility, optional identifier,
optional colon token, a type, and the optional `= expr` default-value
suffix (`assign`). -/
structure Field where
  attrs : List Nat
  vis : Vis
  ident : Option String
  colon_token : Bool
  ty : Nat
  assign : Option Nat
  deriving Repr, DecidableEq

/-- Attribute parse_outer: consume the leading outer attributes. -/
def takeAttrs : List Tok → List Nat × List Tok
  | .attrTok n :: rest =>
    let p := takeAttrs rest
    (n :: p.1, p.2)
  | toks => ([], toks)

/-- syn Visibility parse: consume a leading `pub` if present. -/
def takeVis : List Tok → Vis × List Tok
  | .kwPub :: rest => (.pub_, rest)
  | toks => (.inherited, toks)

/-- Tail of Field.parse_named after attributes and visibility:
`ident : type` and then, if a `=` token follows, a mandatory expression. -/
def parseNamedRest (attrs : List Nat) (vis : Vis) : List Tok → Option (Field × List Tok)
  | .identTok s :: .colon :: .tyTok n :: rest =>
    match rest with
    | .eq :: rest1 =>
      match rest1 with
      | .exprTok m :: rest2 =>
        some ({ attrs := attrs, vis := vis, ident := some s, colon_token := true,
                ty := n, assign := some m }, rest2)
      | _ => none
    | _ =>
      some ({ attrs := attrs, vis := vis, ident := some s, colon_token := true,
              ty := n, assign := none }, rest)
  | _ => none

/-- Tail of Field.parse_unnamed after attributes and visibility:
a type and then, if a `=` token follows, a mandatory expression. -/
def parseUnnamedRest (attrs : List Nat) (vis : Vis) : List Tok → Option (Field × List Tok)
  | .tyTok n :: rest =>
    match rest with
    | .eq :: rest1 =>
      match rest1 with
      | .exprTok m :: rest2 =>
        some ({ attrs := attrs, vis := vis, ident := none, colon_token := false,
                ty := n, assign := some m }, rest2)
      | _ => none
    | _ =>
      some ({ attrs := attrs, vis := vis, ident := none, colon_token := false,
              ty := n, assign := none }, rest)
  | _ => none

/-- Field.parse_named of `default.rs`: attributes, visibility, identifier
(the source also admits a lone underscore as the identifier, modelled here as
an ordinary identifier string), colon, type, optional `= expr`. -/
def Field.parse_named (toks : List Tok) : Option (Field × List Tok) :=
  parseNamedRest (takeAttrs toks).1 (takeVis (takeAttrs toks).2).1 (takeVis (takeAttrs toks).2).2

/-- Field.parse_unnamed of `default.rs`: attributes, visibility, type,
optional `= expr`; no identifier and no colon. -/
def Field.parse_unnamed (toks : List Tok) : Option (Field × List Tok) :=
  parseUnnamedRest (takeAttrs toks).1 (takeVis (takeAttrs toks).2).1 (takeVis (takeAttrs toks).2).2

/-- Selects the per-field parser, as parse_terminated is instantiated with
either Field::parse_named or Field::parse_unnamed. -/
def fieldParse : Bool → List Tok → Option (Field × List Tok)
  | true, toks => Field.parse_named toks
  | false, toks => Field.parse_unnamed toks

theorem takeAttrs_length (toks : List Tok) : (takeAttrs toks).2.length ≤ toks.length := by
  induction toks with
  | nil => simp [takeAttrs]
  | cons t rest ih =>
    cases t <;> simp [takeAttrs] <;> omega

theorem takeVis_length (toks : List Tok) : (takeVis toks).2.length ≤ toks.length := by
  cases toks with
  | nil => simp [takeVis]
  | cons t rest => cases t <;> simp [takeVis]

theorem parseNamedRest_length {attrs : List Nat} {vis : Vis} {t2 rest : List Tok} {f : Field}
    (h : parseNamedRest attrs vis t2 = some (f, rest)) : rest.length < t2.length := by
  unfold parseNamedRest at h
  split at h
  · split at h
    · split at h
      · simp only [Option.some.injEq, Prod.mk.injEq] at h
        obtain ⟨-, h2⟩ := h
        subst h2
        simp only [List.length_cons]
        omega
      · simp at h
    · simp only [Option.some.injEq, Prod.mk.injEq] at h
      obtain ⟨-, h2⟩ := h
      subst h2
      simp only [List.length_cons]
      omega
  · simp at h

theorem parseUnnamedRest_length {attrs : List Nat} {vis : Vis} {t2 rest : List Tok} {f : Field}
    (h : parseUnnamedRest attrs vis t2 = some (f, rest)) : rest.length < t2.length := by
  unfold parseUnnamedRest at h
  split at h
  · split at h
    · split at h
      · simp only [Option.some.injEq, Prod.mk.injEq] at h
        obtain ⟨-, h2⟩ := h
        subst h2
        simp only [List.length_cons]
        omega
      · simp at h
    · simp only [Option.some.injEq, Prod.mk.injEq] at h
      obtain ⟨-, h2⟩ := h
      subst h2
      simp only [List.length_cons]
      omega
  · simp at h

theorem fieldParse_length {named : Bool} {toks rest : List Tok} {f : Field}
    (h : fieldParse named toks = some (f, rest)) : rest.length < toks.length := by
  cases named with
  | true =>
    unfold fieldParse Field.parse_named at h
    calc rest.length < (takeVis (takeAttrs toks).2).2.length := parseNamedRest_length h
      _ ≤ (takeAttrs toks).2.length := takeVis_length _
      _ ≤ toks.length := takeAttrs_length _
  | false =>
    unfold fieldParse Field.parse_unnamed at h
    calc rest.length < (takeVis (takeAttrs toks).2).2.length := parseUnnamedRest_length h
      _ ≤ (takeAttrs toks).2.length := takeVis_length _
      _ ≤ toks.length := takeAttrs_length _

/-- Discriminator for the comma separator token. -/
def Tok.isComma : Tok → Bool
  | .comma => true
  | _ => false

/-- Punctuated parse_terminated instantiated with the given per-field
parser: comma-separated fields with an optional trailing comma, consuming
the whole content.  The Bool of the result records a trailing comma. -/
def parse_terminated (named : Bool) (toks : List Tok) : Option (List Field × Bool) :=
  match toks with
  | [] => some ([], false)
  | t :: ts =>
    match h : fieldParse named (t :: ts) with
    | none => none
    | some (f, rest) =>
      match hr : rest with
      | [] => some ([f], false)
      | r0 :: rest2 =>
        if r0.isComma then
          match hr2 : rest2 with
          | [] => some ([f], true)
          | r :: rs =>
            match parse_terminated named (r :: rs) with
            | none => none
            | some (fs, tr) => some (f :: fs, tr)
        else none
termination_by toks.length
decreasing_by
  have := fieldParse_length h
  subst hr
  subst hr2
  simp only [List.length_cons] at *
  omega

theorem parse_terminated_nil (named : Bool) : parse_terminated named [] = some ([], false) := by
  rw [parse_terminated]

theorem parse_terminated_fail {named : Bool} {t : Tok} {ts : List Tok}
    (hfp : fieldParse named (t :: ts) = none) : parse_terminated named (t :: ts) = none := by
  rw [parse_terminated]
  split <;> simp_all

theorem parse_terminated_last {named : Bool} {t : Tok} {ts : List Tok} {f : Field}
    (hfp : fieldParse named (t :: ts) = some (f, [])) :
    parse_terminated named (t :: ts) = some ([f], false) := by
  rw [parse_terminated]
  split
  · simp_all
  · next g rest heq =>
    rw [hfp] at heq
    simp only [Option.some.injEq, Prod.mk.injEq] at heq
    obtain ⟨rfl, rfl⟩ := heq
    rfl

theorem parse_terminated_trailing {named : Bool} {t : Tok} {ts : List Tok} {f : Field}
    (hfp : fieldParse named (t :: ts) = some (f, [Tok.comma])) :
    parse_terminated named (t :: ts) = some ([f], true) := by
  rw [parse_terminated]
  split
  · simp_all
  · next g rest heq =>
    rw [hfp] at heq
    simp only [Option.some.injEq, Prod.mk.injEq] at heq
    obtain ⟨rfl, rfl⟩ := heq
    rfl

theorem parse_terminated_step {named : Bool} {t : Tok} {ts : List Tok} {f : Field}
    {r : Tok} {rs : List Tok}
    (hfp : fieldParse named (t :: ts) = some (f, Tok.comma :: r :: rs)) :
    parse_terminated named (t :: ts)
      = (parse_terminated named (r :: rs)).map (fun p => (f :: p.1, p.2)) := by
  rw [parse_terminated]
  split
  · simp_all
  · next g rest heq =>
    rw [hfp] at heq
    simp only [Option.some.injEq, Prod.mk.injEq] at heq
    obtain ⟨rfl, rfl⟩ := heq
    simp only [Tok.isComma, if_true]
    cases parse_terminated named (r :: rs) <;> rfl

theorem parse_terminated_badsep {named : Bool} {t r0 : Tok} {ts rest2 : List Tok} {f : Field}
    (hfp : fieldParse named (t :: ts) = some (f, r0 :: rest2)) (hne : r0 ≠ Tok.comma) :
    parse_terminated named (t :: ts) = none := by
  rw [parse_terminated]
  split
  · simp_all
  · next g rest heq =>
    rw [hfp] at heq
    simp only [Option.some.injEq, Prod.mk.injEq] at heq
    obtain ⟨rfl, rfl⟩ := heq
    have : r0.isComma = false := by cases r0 <;> simp_all [Tok.isComma]
    simp [this]

/-- FieldsNamed of `default.rs`: the brace-delimited punctuated field list.
The Bool records whether the punctuated list ends with a trailing comma. -/
structure FieldsNamed where
  fields : List Field
  trailing : Bool
  deriving Repr, DecidableEq

/-- FieldsUnnamed of `default.rs`: the parenthesis-delimited punctuated
field list, with its trailing-comma flag. -/
structure FieldsUnnamed where
  fields : List Field
  trailing : Bool
  deriving Repr, DecidableEq

/-- Fields of `default.rs`: named, unnamed or unit shape. -/
inductive Fields where
  | named (fs : FieldsNamed)
  | unnamed (fs : FieldsUnnamed)
  | unit
  deriving Repr, DecidableEq

/-- Parse impl for FieldsNamed: a brace group whose content is
parse_terminated with Field::parse_named.  The function parse_braced of the
source parses identically. -/
def FieldsNamed.parse (toks : List Tok) : Option (FieldsNamed × List Tok) :=
  match toks with
  | .braceGroup inner :: rest =>
    match parse_terminated true inner with
    | none => none
    | some (fs, tr) => some (⟨fs, tr⟩, rest)
  | _ => none

/-- Parse impl for FieldsUnnamed: a parenthesis group whose content is
parse_terminated with Field::parse_unnamed. -/
def FieldsUnnamed.parse (toks : List Tok) : Option (FieldsUnnamed × List Tok) :=
  match toks with
  | .parenGroup inner :: rest =>
    match parse_terminated false inner with
    | none => none
    | some (fs, tr) => some (⟨fs, tr⟩, rest)
  | _ => none

/-- Continuation of data_struct after the optional leading where-clause has
been parsed.  Mirrors the lookahead chain of the source: the parenthesized
branch is taken only when no leading where-clause was seen
(`where_clause.is_none() && lookahead.peek(token::Paren)`); otherwise a brace
group, or a lone semicolon (unit), is expected. -/
def dataStructTail : Option Nat → List Tok → Option (Option Nat × Fields × Bool × List Tok)
  | none, .parenGroup inner :: rest =>
    (match parse_terminated false inner with
     | none => none
     | some (fs, tr) =>
       match rest with
       | .kwWhere :: rest1 =>
         (match rest1 with
          | .wherePreds w :: rest2 =>
            (match rest2 with
             | .semi :: rest3 => some (some w, .unnamed ⟨fs, tr⟩, true, rest3)
             | _ => none)
          | _ => none)
       | .semi :: rest3 => some (none, .unnamed ⟨fs, tr⟩, true, rest3)
       | _ => none)
  | wc, t1 =>
    match t1 with
    | .braceGroup inner :: rest =>
      (match parse_terminated true inner with
       | none => none
       | some (fs, tr) => some (wc, .named ⟨fs, tr⟩, false, rest))
    | .semi :: rest => some (wc, .unit, true, rest)
    | _ => none

/-- parsing::data_struct of `default.rs`: optional leading where-clause, then
either a parenthesized field list (only reachable when no leading
where-clause was parsed) followed by an optional where-clause and a required
semicolon, or a braced field list, or a bare semicolon (unit).  The Bool of
the result records the presence of the final semicolon; the final list is
the unconsumed remainder of the input.  A where-clause itself is parsed by
the external syn crate and is modelled as the `where` keyword followed by
one opaque predicate-list atom. -/
def data_struct (toks : List Tok) : Option (Option Nat × Fields × Bool × List Tok) :=
  match toks with
  | .kwWhere :: rest =>
    (match rest with
     | .wherePreds w :: t1 => dataStructTail (some w) t1
     | _ => none)
  | _ => dataStructTail none toks

/-- One emitted diagnostic: its message and an optional help note.  The
span payload of the diagnostics plumbing is not modelled. -/
structure Diag where
  msg : String
  help : Option String
  deriving Repr, DecidableEq

/-- Tokens printed for a Visibility. -/
def visToTokens : Vis → List Tok
  | .inherited => []
  | .pub_ => [.kwPub]

/-- ToTokens impl for Field in `default.rs`: appends the attributes, the
visibility, the identifier followed by a colon when the identifier is
present (TokensOrDefault prints a default colon even when the stored colon
token is absent), and the type.  A default-value expression still attached
at this point is NOT appended; instead emit_error raises a diagnostic at
the `=` token with a help note naming the impl_default attribute. -/
def Field.to_tokens (f : Field) : List Tok × List Diag :=
  ((f.attrs.map Tok.attrTok) ++ visToTokens f.vis ++
     (match f.ident with
      | some s => [Tok.identTok s, Tok.colon]
      | none => []) ++ [Tok.tyTok f.ty],
   match f.assign with
   | some _ => [⟨"default value on `struct` field in output",
                 some "did you mean to use the `#[impl_default]` attribute?"⟩]
   | none => [])

/-- ToTokens for the punctuated field list: fields separated by commas, a
final comma if the stored trailing punctuation is present.  Diagnostics of
the individual fields are collected in order. -/
def printPunctuated : List Field → Bool → List Tok × List Diag
  | [], _ => ([], [])
  | [f], trailing =>
    ((f.to_tokens).1 ++ (if trailing then [Tok.comma] else []), (f.to_tokens).2)
  | f :: g :: fs, trailing =>
    ((f.to_tokens).1 ++ [Tok.comma] ++ (printPunctuated (g :: fs) trailing).1,
     (f.to_tokens).2 ++ (printPunctuated (g :: fs) trailing).2)

/-- ToTokens impl for FieldsNamed: the punctuated list surrounded by the
brace token. -/
def FieldsNamed.to_tokens (fs : FieldsNamed) : List Tok × List Diag :=
  ([Tok.braceGroup (printPunctuated fs.fields fs.trailing).1],
   (printPunctuated fs.fields fs.trailing).2)

/-- ToTokens impl for FieldsUnnamed: the punctuated list surrounded by the
parenthesis token. -/
def FieldsUnnamed.to_tokens (fs : FieldsUnnamed) : List Tok × List Diag :=
  ([Tok.parenGroup (printPunctuated fs.fields fs.trailing).1],
   (printPunctuated fs.fields fs.trailing).2)

/-- Shape invariant established by the two field parsers: named fields have
an identifier and a colon token, unnamed fields have neither. -/
def fieldShapeOk : Bool → Field → Prop
  | true, f => (∃ s, f.ident = some s) ∧ f.colon_token = true
  | false, f => f.ident = none ∧ f.colon_token = false

theorem parseNamedRest_shape {attrs : List Nat} {vis : Vis} {t2 rest : List Tok} {f : Field}
    (h : parseNamedRest attrs vis t2 = some (f, rest)) :
    (∃ s, f.ident = some s) ∧ f.colon_token = true := by
  unfold parseNamedRest at h
  split at h
  · split at h
    · split at h
      · simp only [Option.some.injEq, Prod.mk.injEq] at h
        obtain ⟨rfl, -⟩ := h
        exact ⟨⟨_, rfl⟩, rfl⟩
      · simp at h
    · simp only [Option.some.injEq, Prod.mk.injEq] at h
      obtain ⟨rfl, -⟩ := h
      exact ⟨⟨_, rfl⟩, rfl⟩
  · simp at h

theorem parseUnnamedRest_shape {attrs : List Nat} {vis : Vis} {t2 rest : List Tok} {f : Field}
    (h : parseUnnamedRest attrs vis t2 = some (f, rest)) :
    f.ident = none ∧ f.colon_token = false := by
  unfold parseUnnamedRest at h
  split at h
  · split at h
    · split at h
      · simp only [Option.some.injEq, Prod.mk.injEq] at h
        obtain ⟨rfl, -⟩ := h
        exact ⟨rfl, rfl⟩
      · simp at h
    · simp only [Option.some.injEq, Prod.mk.injEq] at h
      obtain ⟨rfl, -⟩ := h
      exact ⟨rfl, rfl⟩
  · simp at h

theorem fieldParse_shape {named : Bool} {toks rest : List Tok} {f : Field}
    (h : fieldParse named toks = some (f, rest)) : fieldShapeOk named f := by
  cases named with
  | true =>
    unfold fieldParse Field.parse_named at h
    exact parseNamedRest_shape h
  | false =>
    unfold fieldParse Field.parse_unnamed at h
    exact parseUnnamedRest_shape h


theorem parse_terminated_shape {named : Bool} {toks : List Tok} {fs : List Field} {tr : Bool}
    (h : parse_terminated named toks = some (fs, tr)) : ∀ f ∈ fs, fieldShapeOk named f := by
  induction toks using parse_terminated.induct generalizing fs tr with
  | named => exact named
  | case1 =>
    rw [parse_terminated_nil] at h
    simp only [Option.some.injEq, Prod.mk.injEq] at h
    obtain ⟨rfl, -⟩ := h
    simp
  | case2 t ts hfp =>
    rw [parse_terminated_fail hfp] at h
    simp at h
  | case3 t ts f hfp hfp2 =>
    rw [parse_terminated_last hfp] at h
    simp only [Option.some.injEq, Prod.mk.injEq] at h
    obtain ⟨rfl, -⟩ := h
    intro g hg
    simp only [List.mem_singleton] at hg
    subst hg
    exact fieldParse_shape hfp
  | case4 t ts f r0 hcomma hfp hfp2 hfp3 heq =>
    have hr0 : r0 = Tok.comma := by cases r0 <;> simp_all [Tok.isComma]
    subst hr0
    rw [parse_terminated_trailing hfp] at h
    simp only [Option.some.injEq, Prod.mk.injEq] at h
    obtain ⟨rfl, -⟩ := h
    intro g hg
    simp only [List.mem_singleton] at hg
    subst hg
    exact fieldParse_shape hfp
  | case5 t ts f r0 hcomma r rs hfp hrec hfp2 hfp3 heq ih =>
    have hr0 : r0 = Tok.comma := by cases r0 <;> simp_all [Tok.isComma]
    subst hr0
    rw [parse_terminated_step hfp, hrec] at h
    simp at h
  | case6 t ts f r0 hcomma r rs hfp fs2 tr2 hrec hfp2 hfp3 heq ih =>
    have hr0 : r0 = Tok.comma := by cases r0 <;> simp_all [Tok.isComma]
    subst hr0
    rw [parse_terminated_step hfp, hrec] at h
    simp only [Option.map_some', Option.some.injEq, Prod.mk.injEq] at h
    obtain ⟨rfl, -⟩ := h
    intro g hg
    simp only [List.mem_cons] at hg
    rcases hg with rfl | hg
    · exact fieldParse_shape hfp
    · exact ih hrec g hg
  | case7 t ts f r0 rest2 hfp hnc hfp2 =>
    have : r0 ≠ Tok.comma := by
      intro hr0
      subst hr0
      simp [Tok.isComma] at hnc
    rw [parse_terminated_badsep hfp this] at h
    simp at h

/-- The continuation after a printed field must not begin with the tokens of
a default-value suffix; the comma separator and the end of input qualify. -/
def noEqHead : List Tok → Prop
  | .eq :: _ => False
  | _ => True

def noAttrHead : List Tok → Prop
  | .attrTok _ :: _ => False
  | _ => True

def noVisHead : List Tok → Prop
  | .kwPub :: _ => False
  | _ => True

theorem takeAttrs_append {attrs : List Nat} {rest : List Tok} (h : noAttrHead rest) :
    takeAttrs (attrs.map Tok.attrTok ++ rest) = (attrs, rest) := by
  induction attrs with
  | nil =>
    cases rest with
    | nil => rfl
    | cons t ts => cases t <;> simp_all [takeAttrs, noAttrHead]
  | cons a as ih => simp [takeAttrs, ih]

theorem takeVis_append {v : Vis} {rest : List Tok} (h : noVisHead rest) :
    takeVis (visToTokens v ++ rest) = (v, rest) := by
  cases v with
  | pub_ => rfl
  | inherited =>
    cases rest with
    | nil => rfl
    | cons t ts => cases t <;> simp_all [takeVis, noVisHead, visToTokens]

theorem parse_named_print {f : Field} {s : String} (hs : f.ident = some s)
    (hc : f.colon_token = true) (ha : f.assign = none) {rest : List Tok} (hrest : noEqHead rest) :
    Field.parse_named ((f.to_tokens).1 ++ rest) = some (f, rest) := by
  obtain ⟨attrs, vis, ident, ct, ty, assign⟩ := f
  simp only at hs hc ha
  subst hs hc ha
  have hshape : (Field.to_tokens ⟨attrs, vis, some s, true, ty, none⟩).1 ++ rest
      = attrs.map Tok.attrTok ++ (visToTokens vis ++ (Tok.identTok s :: Tok.colon :: Tok.tyTok ty :: rest)) := by
    simp [Field.to_tokens]
  rw [hshape, Field.parse_named]
  have h1 : noAttrHead (visToTokens vis ++ (Tok.identTok s :: Tok.colon :: Tok.tyTok ty :: rest)) := by
    cases vis <;> simp [visToTokens, noAttrHead]
  have h2 : noVisHead (Tok.identTok s :: Tok.colon :: Tok.tyTok ty :: rest) := by
    simp [noVisHead]
  rw [takeAttrs_append h1]
  simp only
  rw [takeVis_append h2]
  simp only
  unfold parseNamedRest
  cases rest with
  | nil => rfl
  | cons t ts => cases t <;> simp_all [noEqHead]

theorem parse_unnamed_print {f : Field} (hs : f.ident = none)
    (hc : f.colon_token = false) (ha : f.assign = none) {rest : List Tok} (hrest : noEqHead rest) :
    Field.parse_unnamed ((f.to_tokens).1 ++ rest) = some (f, rest) := by
  obtain ⟨attrs, vis, ident, ct, ty, assign⟩ := f
  simp only at hs hc ha
  subst hs hc ha
  have hshape : (Field.to_tokens ⟨attrs, vis, none, false, ty, none⟩).1 ++ rest
      = attrs.map Tok.attrTok ++ (visToTokens vis ++ (Tok.tyTok ty :: rest)) := by
    simp [Field.to_tokens]
  rw [hshape, Field.parse_unnamed]
  have h1 : noAttrHead (visToTokens vis ++ (Tok.tyTok ty :: rest)) := by
    cases vis <;> simp [visToTokens, noAttrHead]
  have h2 : noVisHead (Tok.tyTok ty :: rest) := by
    simp [noVisHead]
  rw [takeAttrs_append h1]
  simp only
  rw [takeVis_append h2]
  simp only
  unfold parseUnnamedRest
  cases rest with
  | nil => rfl
  | cons t ts => cases t <;> simp_all [noEqHead]

theorem fieldParse_print {named : Bool} {f : Field} (hsh : fieldShapeOk named f)
    (ha : f.assign = none) {rest : List Tok} (hrest : noEqHead rest) :
    fieldParse named ((f.to_tokens).1 ++ rest) = some (f, rest) := by
  cases named with
  | true =>
    obtain ⟨⟨s, hs⟩, hc⟩ := hsh
    exact parse_named_print hs hc ha hrest
  | false =>
    exact parse_unnamed_print hsh.1 hsh.2 ha hrest

theorem to_tokens_ne_nil (f : Field) : (f.to_tokens).1 ≠ [] := by
  simp [Field.to_tokens]

theorem printPunctuated_ne_nil (f : Field) (fs : List Field) (tr : Bool) :
    (printPunctuated (f :: fs) tr).1 ≠ [] := by
  cases fs with
  | nil =>
    simp only [printPunctuated]
    intro hcon
    rcases List.append_eq_nil.mp hcon with ⟨h1, -⟩
    exact to_tokens_ne_nil f h1
  | cons g gs =>
    simp only [printPunctuated]
    intro hcon
    rcases List.append_eq_nil.mp hcon with ⟨h1, -⟩
    rcases List.append_eq_nil.mp h1 with ⟨h2, -⟩
    exact to_tokens_ne_nil f h2

theorem printPunctuated_diags_nil (fs : List Field) (tr : Bool)
    (ha : ∀ f ∈ fs, f.assign = none) : (printPunctuated fs tr).2 = [] := by
  induction fs with
  | nil => rfl
  | cons f gs ih =>
    have haf : f.assign = none := ha f (by simp)
    have hfd : (f.to_tokens).2 = [] := by
      simp [Field.to_tokens, haf]
    cases gs with
    | nil => simp [printPunctuated, hfd]
    | cons g gs2 =>
      simp only [printPunctuated, hfd, List.nil_append]
      exact ih (fun g hg => ha g (by simp [hg]))

theorem parse_terminated_print {named : Bool} (fs : List Field) (tr : Bool)
    (hshape : ∀ f ∈ fs, fieldShapeOk named f) (hassign : ∀ f ∈ fs, f.assign = none)
    (htr : fs = [] → tr = false) :
    parse_terminated named (printPunctuated fs tr).1 = some (fs, tr) := by
  induction fs with
  | nil =>
    rw [htr rfl]
    exact parse_terminated_nil named
  | cons f gs ih =>
    have hshf := hshape f (by simp)
    have haf := hassign f (by simp)
    cases gs with
    | nil =>
      cases tr with
      | false =>
        have hfp : fieldParse named ((f.to_tokens).1 ++ []) = some (f, []) :=
          fieldParse_print hshf haf trivial
        obtain ⟨t, ts, hts⟩ := List.exists_cons_of_ne_nil (to_tokens_ne_nil f)
        simp only [printPunctuated, if_neg (by simp : ¬(false = true))]
        rw [hts] at hfp ⊢
        simp only [List.cons_append] at hfp ⊢
        exact parse_terminated_last hfp
      | true =>
        have hfp : fieldParse named ((f.to_tokens).1 ++ [Tok.comma]) = some (f, [Tok.comma]) :=
          fieldParse_print hshf haf trivial
        obtain ⟨t, ts, hts⟩ := List.exists_cons_of_ne_nil (to_tokens_ne_nil f)
        simp only [printPunctuated, if_pos rfl]
        rw [hts] at hfp ⊢
        simp only [List.cons_append] at hfp ⊢
        exact parse_terminated_trailing hfp
    | cons g gs2 =>
      obtain ⟨r, rs, hrs⟩ := List.exists_cons_of_ne_nil (printPunctuated_ne_nil g gs2 tr)
      have hfp : fieldParse named ((f.to_tokens).1 ++ (Tok.comma :: r :: rs))
          = some (f, Tok.comma :: r :: rs) :=
        fieldParse_print hshf haf trivial
      obtain ⟨t, ts, hts⟩ := List.exists_cons_of_ne_nil (to_tokens_ne_nil f)
      have hrec := ih (fun g2 hg => hshape g2 (by simp [hg])) (fun g2 hg => hassign g2 (by simp [hg]))
        (by intro hcon; exact absurd hcon (by simp))
      rw [hrs] at hrec
      simp only [printPunctuated]
      rw [hrs, hts]
      rw [hts, List.cons_append] at hfp
      have hgoal : (t :: ts) ++ [Tok.comma] ++ (r :: rs) = t :: (ts ++ (Tok.comma :: r :: rs)) := by
        simp
      rw [hgoal]
      rw [parse_terminated_step hfp, hrec]
      rfl

theorem parse_terminated_nil_inv {named : Bool} {toks : List Tok} {tr : Bool}
    (h : parse_terminated named toks = some ([], tr)) : toks = [] ∧ tr = false := by
  induction toks using parse_terminated.induct with
  | named => exact named
  | case1 =>
    rw [parse_terminated_nil] at h
    simp_all
  | case2 t ts hfp =>
    rw [parse_terminated_fail hfp] at h
    simp at h
  | case3 t ts f hfp hfp2 =>
    rw [parse_terminated_last hfp] at h
    simp at h
  | case4 t ts f r0 hcomma hfp hfp2 hfp3 heq =>
    have hr0 : r0 = Tok.comma := by cases r0 <;> simp_all [Tok.isComma]
    subst hr0
    rw [parse_terminated_trailing hfp] at h
    simp at h
  | case5 t ts f r0 hcomma r rs hfp hrec hfp2 hfp3 heq ih =>
    have hr0 : r0 = Tok.comma := by cases r0 <;> simp_all [Tok.isComma]
    subst hr0
    rw [parse_terminated_step hfp, hrec] at h
    simp at h
  | case6 t ts f r0 hcomma r rs hfp fs2 tr2 hrec hfp2 hfp3 heq ih =>
    have hr0 : r0 = Tok.comma := by cases r0 <;> simp_all [Tok.isComma]
    subst hr0
    rw [parse_terminated_step hfp, hrec] at h
    simp at h
  | case7 t ts f r0 rest2 hfp hnc hfp2 =>
    have hne : r0 ≠ Tok.comma := by
      intro hr0
      subst hr0
      simp [Tok.isComma] at hnc
    rw [parse_terminated_badsep hfp hne] at h
    simp at h

theorem FieldsNamed_roundtrip {toks rest : List Tok} {fn : FieldsNamed}
    (hp : FieldsNamed.parse toks = some (fn, rest))
    (ha : ∀ f ∈ fn.fields, f.assign = none) :
    (fn.to_tokens).2 = [] ∧ FieldsNamed.parse (fn.to_tokens).1 = some (fn, []) := by
  unfold FieldsNamed.parse at hp
  split at hp
  · next inner rest0 =>
    split at hp
    · simp at hp
    · next fs tr hpt =>
      simp only [Option.some.injEq, Prod.mk.injEq] at hp
      obtain ⟨rfl, rfl⟩ := hp
      have hshape := parse_terminated_shape hpt
      have haf : ∀ f ∈ fs, f.assign = none := ha
      have htr : fs = [] → tr = false := by
        intro hnil
        subst hnil
        exact (parse_terminated_nil_inv hpt).2
      refine ⟨printPunctuated_diags_nil fs tr haf, ?_⟩
      unfold FieldsNamed.to_tokens FieldsNamed.parse
      simp only
      rw [parse_terminated_print fs tr hshape haf htr]
  · simp at hp

theorem FieldsUnnamed_roundtrip {toks rest : List Tok} {fu : FieldsUnnamed}
    (hp : FieldsUnnamed.parse toks = some (fu, rest))
    (ha : ∀ f ∈ fu.fields, f.assign = none) :
    (fu.to_tokens).2 = [] ∧ FieldsUnnamed.parse (fu.to_tokens).1 = some (fu, []) := by
  unfold FieldsUnnamed.parse at hp
  split at hp
  · next inner rest0 =>
    split at hp
    · simp at hp
    · next fs tr hpt =>
      simp only [Option.some.injEq, Prod.mk.injEq] at hp
      obtain ⟨rfl, rfl⟩ := hp
      have hshape := parse_terminated_shape hpt
      have haf : ∀ f ∈ fs, f.assign = none := ha
      have htr : fs = [] → tr = false := by
        intro hnil
        subst hnil
        exact (parse_terminated_nil_inv hpt).2
      refine ⟨printPunctuated_diags_nil fs tr haf, ?_⟩
      unfold FieldsUnnamed.to_tokens FieldsUnnamed.parse
      simp only
      rw [parse_terminated_print fs tr hshape haf htr]
  · simp at hp

/-! ### The autoimpl generators of `impl_misc.rs`

These generators operate on a plain `syn::ItemStruct`, whose fields carry no
default-value extension.  Only the components the generators read are
modelled: the identifiers of named fields and the number of unnamed fields
(field types, visibility and attributes are opaque and never inspected, and
the generics of the item are not read by struct_items). -/

namespace autoimpl

/-- syn::Fields as read by the generators of `impl_misc.rs`. -/
inductive SynFields where
  | named (idents : List String)
  | unnamed (len : Nat)
  | unit
  deriving Repr, DecidableEq

/-- syn::ItemStruct: the type identifier and the fields. -/
structure ItemStruct where
  ident : String
  fields : SynFields
  deriving Repr, DecidableEq

/-- Modelled from the spec: ImplArgs lives in `autoimpl/mod.rs`, which is
not under src/; per §3 a ModifierSet holds the ignored field identities, by
name or by positional index (no built-in capability here uses a delegate
field).  The two predicates below test membership. -/
structure ImplArgs where
  ignoreNames : List String
  ignoreIndices : List Nat
  deriving Repr, DecidableEq

/-- Whether a named field is ignored by this invocation. -/
def ImplArgs.ignore_named (args : ImplArgs) (ident : String) : Bool :=
  args.ignoreNames.contains ident

/-- Whether a positional field is ignored by this invocation. -/
def ImplArgs.ignore_unnamed (args : ImplArgs) (index : Nat) : Bool :=
  args.ignoreIndices.contains index

/-- One field initializer fragment appended by the Clone and Default
generators.  Each constructor records one quote template of the source with
its interpolated values: namedDefault for the named-field default template,
namedCloneOf for the named-field clone template (the source interpolates
the single variable ident as both the target name and the self field, kept
separate here so the theorems can state that they coincide), posDefault for
the positional default template, posCloneOf for the positional clone
template. -/
inductive FieldInit where
  | namedDefault (target : String)
  | namedCloneOf (target source : String)
  | posDefault
  | posCloneOf (source : Nat)
  deriving Repr, DecidableEq

/-- The constructor expression built by the Clone and Default generators:
braced `#type_ident { ... }`, parenthesized `#type_ident ( ... )`, or the
bare `#type_ident`. -/
inductive StructInner where
  | braced (typeIdent : String) (inits : List FieldInit)
  | parened (typeIdent : String) (inits : List FieldInit)
  | bare (typeIdent : String)
  deriving Repr, DecidableEq

/-- Loop of ImplClone::struct_items over the named fields, in declaration
order: an ignored field is set to its default, every other field clones the
self field of the same name. -/
def cloneNamedLoop (args : ImplArgs) : List String → List FieldInit
  | [] => []
  | ident :: rest =>
    (if args.ignore_named ident then FieldInit.namedDefault ident
     else FieldInit.namedCloneOf ident ident) :: cloneNamedLoop args rest

/-- Loop of ImplClone::struct_items over the index range of the unnamed
fields. -/
def cloneUnnamedLoop (args : ImplArgs) (len : Nat) : List FieldInit :=
  (List.range len).map fun i =>
    if args.ignore_unnamed i then FieldInit.posDefault else FieldInit.posCloneOf i

/-- ImplClone::struct_items: the constructor expression inside the body of
the generated clone function.  The fixed surrounding function frame is not
modelled; the source always returns Ok here. -/
def ImplClone.struct_items (item : ItemStruct) (args : ImplArgs) : StructInner :=
  match item.fields with
  | .named idents => .braced item.ident (cloneNamedLoop args idents)
  | .unnamed len => .parened item.ident (cloneUnnamedLoop args len)
  | .unit => .bare item.ident

/-- One builder call appended by ImplDebug::struct_items: a named field
entry (the string name and the self field it reads), an indexed field
entry, the underscore placeholder entry, the exhaustive finish, or the
non-exhaustive finish. -/
inductive DebugCall where
  | fieldNamed (name : String) (source : String)
  | fieldIndexed (index : Nat)
  | placeholder
  | finishCall
  | finishNonExhaustive
  deriving Repr, DecidableEq

/-- The formatter expression built by ImplDebug::struct_items: a
debug_struct builder chain, a debug_tuple builder chain, or a bare
write_str of the type name. -/
inductive DebugInner where
  | debugStruct (typeName : String) (calls : List DebugCall)
  | debugTuple (typeName : String) (calls : List DebugCall)
  | writeStr (typeName : String)
  deriving Repr, DecidableEq

/-- Loop of ImplDebug::struct_items over the named fields: one field call
for every field that is not ignored, and the no_skips flag is cleared when
some field is ignored. -/
def debugNamedLoop (args : ImplArgs) : List String → List DebugCall × Bool
  | [] => ([], true)
  | ident :: rest =>
    let p := debugNamedLoop args rest
    if !args.ignore_named ident then (DebugCall.fieldNamed ident ident :: p.1, p.2)
    else (p.1, false)

/-- Loop of ImplDebug::struct_items over the index range of the unnamed
fields: a value call for a field that is not ignored, a placeholder call
otherwise — one call per index either way. -/
def debugUnnamedLoop (args : ImplArgs) (len : Nat) : List DebugCall :=
  (List.range len).map fun i =>
    if !args.ignore_unnamed i then DebugCall.fieldIndexed i else DebugCall.placeholder

/-- ImplDebug::struct_items: the formatter expression inside the body of
the generated fmt function.  Named records append the exhaustive finish
when no_skips survived the loop and the non-exhaustive finish otherwise;
unnamed records always append the exhaustive finish; unit records write
the type name. -/
def ImplDebug.struct_items (item : ItemStruct) (args : ImplArgs) : DebugInner :=
  match item.fields with
  | .named idents =>
    let p := debugNamedLoop args idents
    .debugStruct item.ident
      (p.1 ++ [if p.2 then DebugCall.finishCall else DebugCall.finishNonExhaustive])
  | .unnamed len =>
    .debugTuple item.ident (debugUnnamedLoop args len ++ [DebugCall.finishCall])
  | .unit => .writeStr item.ident

/-- ImplDefault::struct_items of `impl_misc.rs`: the constructor expression
inside the body of the generated default function; every field is the
default value, and the constructor is shaped per record kind. -/
def ImplDefault.struct_items (item : ItemStruct) (_args : ImplArgs) : StructInner :=
  match item.fields with
  | .named idents => .braced item.ident (idents.map FieldInit.namedDefault)
  | .unnamed len => .parened item.ident ((List.range len).map fun _ => FieldInit.posDefault)
  | .unit => .bare item.ident

end autoimpl

/-! ### The `#[impl_default]` handler of `default.rs` -/

/-- Generics of a declaration: an opaque parameter-list payload and an
optional where-clause payload (both parsed and split by the external syn
crate and echoed, never inspected). -/
structure Generics where
  params : Nat
  whereClause : Option Nat
  deriving Repr, DecidableEq

/-- ImplDefault of `default.rs`: the parsed attribute arguments — an
optional whole-type default expression, an optional trailing where-clause,
and the attribute span (an opaque number). -/
structure ImplDefault where
  expr : Option Nat
  where_clause : Option Nat
  span : Nat
  deriving Repr, DecidableEq

/-- Modelled from the spec: clause_to_toks lives in `generics.rs`, which is
not under src/; generic and where-clause propagation is opaque pass-through
(§1 out of scope, §4.4).  The model records the two clause inputs verbatim;
the fixed `Default` bound payload is omitted. -/
def clause_to_toks (attrClause itemClause : Option Nat) : Option Nat × Option Nat :=
  (attrClause, itemClause)

/-- One field initializer of the generated default constructor body.
explicitInit is the template `#ident : #expr` (the default expression taken
from the field during parsing); defaultInit is the template
`#ident : Default::default()`.  The identifier is interpolated as an Option:
for an unnamed field it prints nothing, leaving a bare leading colon. -/
inductive DefaultFieldInit where
  | explicitInit (ident : Option String) (e : Nat)
  | defaultInit (ident : Option String)
  deriving Repr, DecidableEq

/-- Body of the generated default function: either the explicit invocation
expression verbatim, or the braced constructor `#ident { #fields }` — the
single constructor shape the scope path emits for named, unnamed and unit
records alike. -/
inductive DefaultBody where
  | exprBody (e : Nat)
  | bracedCtor (ident : String) (inits : List DefaultFieldInit)
  deriving Repr, DecidableEq

/-- One generated implementation fragment: the impl frame
`impl #impl_generics Default for #ident #ty_generics #wc` around a default
function with the given body. -/
structure ImplFragment where
  ident : String
  generics : Generics
  wc : Option Nat × Option Nat
  body : DefaultBody
  deriving Repr, DecidableEq

/-- gen_expr of `default.rs`: the impl frame for the given identity and
generics, with the explicit expression as the whole body.  The source
unwraps self.expr; both call sites guard expr.is_some, so the model takes
the expression already unwrapped. -/
def ImplDefault.gen_expr (self : ImplDefault) (e : Nat) (ident : String)
    (generics : Generics) : ImplFragment :=
  { ident := ident, generics := generics,
    wc := clause_to_toks self.where_clause generics.whereClause,
    body := .exprBody e }

/-- A syn::Item as far as expand inspects it: the four accepted kinds carry
their identifier and generics; every other kind is otherItem. -/
inductive Item where
  | enumItem (ident : String) (generics : Generics)
  | structItem (ident : String) (generics : Generics)
  | typeItem (ident : String) (generics : Generics)
  | unionItem (ident : String) (generics : Generics)
  | otherItem (payload : Nat)
  deriving Repr, DecidableEq

/-- Result of ImplDefault::expand: the emitted fragment, if any (the empty
TokenStream the source returns on error is modelled as none), and the
diagnostics raised. -/
structure ExpandResult where
  output : Option ImplFragment
  errors : List String
  deriving Repr, DecidableEq

/-- ImplDefault::expand of `default.rs`.  The item argument is the result
of parsing the annotated item; none models a parse2 failure, whose message
comes from the external parser and is modelled by a fixed placeholder.
With an expression present: accept enum, struct, type-alias and union
items, generating from the expression and the declared identity and
generics alone; report an error and emit nothing for any other item kind.
With no expression: report the usage error and emit nothing. -/
def ImplDefault.expand (self : ImplDefault) (item : Option Item) : ExpandResult :=
  match self.expr with
  | some e =>
    (match item with
     | none => { output := none, errors := ["syn parse error"] }
     | some it =>
       match it with
       | .enumItem ident generics
       | .structItem ident generics
       | .typeItem ident generics
       | .unionItem ident generics =>
         { output := some (self.gen_expr e ident generics), errors := [] }
       | .otherItem _ =>
         { output := none,
           errors := ["default: only supports enum, struct, type alias and union items"] })
  | none =>
    { output := none, errors := ["invalid use outside of `impl_scope!` macro"] }

/-- Modelled from the spec: ScopeItem of the crate root is not under src/;
per §2 the TypeDescriptor carries the field-list variant of a record, and
other declaration kinds reach the non-struct error path of impl_default. -/
inductive ScopeItem where
  | structItem (fields : Fields)
  | otherItem (payload : Nat)
  deriving Repr, DecidableEq

/-- Modelled from the spec: Scope of the crate root is not under src/; it
carries the declared identity, the generics, the item body, and the growing
list of generated fragments (§2, §6). -/
structure Scope where
  ident : String
  generics : Generics
  item : ScopeItem
  generated : List ImplFragment
  deriving Repr, DecidableEq

/-- Per-field rendering loop of impl_default on the no-expression path: a
field still carrying an attached default expression contributes the
explicit template and has the expression taken (cleared); any other field
contributes the generic default template.  Returns the initializers and
the fields after the take. -/
def defaultFieldIter : List Field → List DefaultFieldInit × List Field
  | [] => ([], [])
  | f :: rest =>
    let p := defaultFieldIter rest
    ((match f.assign with
      | some e => DefaultFieldInit.explicitInit f.ident e
      | none => DefaultFieldInit.defaultInit f.ident) :: p.1,
     { f with assign := none } :: p.2)

/-- impl_default of `default.rs` (the ATTR_IMPL_DEFAULT scope rule).  With
an expression, gen_expr runs against the scope identity and the fields are
left untouched.  Without one, a struct scope renders its field list — the
named and unnamed field shapes share a single branch, and the constructor
emitted is always the braced `#ident { #fields }` form, for the unit shape
too — while a non-struct scope is an error carrying the attribute span. -/
def impl_default (attr : ImplDefault) (attr_span : Nat) (scope : Scope) :
    Except (Nat × String) Scope :=
  match attr.expr with
  | some e =>
    .ok { scope with
          generated := scope.generated ++ [attr.gen_expr e scope.ident scope.generics] }
  | none =>
    match scope.item with
    | .structItem fields =>
      let p : List DefaultFieldInit × Fields :=
        match fields with
        | .named fn =>
          ((defaultFieldIter fn.fields).1, .named ⟨(defaultFieldIter fn.fields).2, fn.trailing⟩)
        | .unnamed fu =>
          ((defaultFieldIter fu.fields).1, .unnamed ⟨(defaultFieldIter fu.fields).2, fu.trailing⟩)
        | .unit => ([], .unit)
      .ok { scope with
            item := .structItem p.2,
            generated := scope.generated ++
              [{ ident := scope.ident, generics := scope.generics,
                 wc := clause_to_toks attr.where_clause scope.generics.whereClause,
                 body := .bracedCtor scope.ident p.1 }] }
    | .otherItem _ =>
      .error (attr_span, "must specify value as `#[impl_default(value)]` on non-struct type")

namespace autoimpl

theorem cloneNamedLoop_map (args : ImplArgs) (idents : List String) :
    cloneNamedLoop args idents = idents.map fun id =>
      if args.ignore_named id then FieldInit.namedDefault id
      else FieldInit.namedCloneOf id id := by
  induction idents with
  | nil => rfl
  | cons i is ih => simp [cloneNamedLoop, ih]

theorem debugNamedLoop_spec (args : ImplArgs) (idents : List String) :
    debugNamedLoop args idents
      = ((idents.filter fun id => !args.ignore_named id).map fun id =>
           DebugCall.fieldNamed id id,
         !idents.any fun id => args.ignore_named id) := by
  induction idents with
  | nil => rfl
  | cons i is ih =>
    cases h : args.ignore_named i <;>
      simp [debugNamedLoop, ih, h, List.filter_cons, List.any_cons]

end autoimpl

/-- C3: for every named record and every copy-capability invocation, the
generated clone body constructs the same type with each ignored field set to
the default value of its own type and every other field cloned from the
self field of the SAME name (namedCloneOf carries the target and the source
name, and they coincide on every emitted entry) — an ignored field is never
assigned the value of another field. -/
theorem implClone_named_ignored_defaults (n : String) (idents : List String)
    (args : autoimpl.ImplArgs) :
    autoimpl.ImplClone.struct_items ⟨n, .named idents⟩ args
      = .braced n (idents.map fun id =>
          if args.ignore_named id then autoimpl.FieldInit.namedDefault id
          else autoimpl.FieldInit.namedCloneOf id id)
  ∧ ∀ t s : String,
      autoimpl.FieldInit.namedCloneOf t s ∈ autoimpl.cloneNamedLoop args idents → t = s := by
  constructor
  · simp [autoimpl.ImplClone.struct_items, autoimpl.cloneNamedLoop_map]
  · intro t s hmem
    rw [autoimpl.cloneNamedLoop_map] at hmem
    simp only [List.mem_map] at hmem
    obtain ⟨id, -, hid⟩ := hmem
    revert hid
    cases args.ignore_named id <;> simp <;> rintro rfl rfl <;> rfl

/-- C4: for every named record, the debug-formatting capability appends the
exhaustive finish exactly when the set of ignored fields of the record is
empty, and the non-exhaustive finish as soon as at least one field is
ignored, with one field entry per non-ignored field in declaration order. -/
theorem implDebug_named_finish_mode (n : String) (idents : List String)
    (args : autoimpl.ImplArgs) :
    autoimpl.ImplDebug.struct_items ⟨n, .named idents⟩ args
      = .debugStruct n
          (((idents.filter fun id => !args.ignore_named id).map fun id =>
              autoimpl.DebugCall.fieldNamed id id)
           ++ [if (idents.filter fun id => args.ignore_named id) = []
               then autoimpl.DebugCall.finishCall
               else autoimpl.DebugCall.finishNonExhaustive]) := by
  simp only [autoimpl.ImplDebug.struct_items, autoimpl.debugNamedLoop_spec]
  cases h : idents.any fun id => args.ignore_named id with
  | false =>
    have hfilter : (idents.filter fun id => args.ignore_named id) = [] := by
      rw [List.filter_eq_nil_iff]
      intro a ha
      have := List.any_eq_false.mp h a ha
      simp_all
    simp [hfilter]
  | true =>
    have hfilter : (idents.filter fun id => args.ignore_named id) ≠ [] := by
      obtain ⟨a, ha, hpa⟩ := List.any_eq_true.mp h
      intro hcon
      have := List.filter_eq_nil_iff.mp hcon a ha
      simp_all
    simp [hfilter]

/-- C5: for every positional record, the debug-formatting output holds
exactly one field slot per declared field, in index order — the field value
when the field is included, the underscore placeholder when it is ignored —
followed by the finish, so the emitted arity equals the declared arity. -/
theorem implDebug_unnamed_arity_preserved (n : String) (len : Nat)
    (args : autoimpl.ImplArgs) :
    autoimpl.ImplDebug.struct_items ⟨n, .unnamed len⟩ args
      = .debugTuple n
          (((List.range len).map fun i =>
              if args.ignore_unnamed i then autoimpl.DebugCall.placeholder
              else autoimpl.DebugCall.fieldIndexed i)
           ++ [autoimpl.DebugCall.finishCall])
  ∧ ((List.range len).map fun i =>
       if args.ignore_unnamed i then autoimpl.DebugCall.placeholder
       else autoimpl.DebugCall.fieldIndexed i).length = len := by
  constructor
  · simp only [autoimpl.ImplDebug.struct_items, autoimpl.debugUnnamedLoop]
    congr 2
    apply List.map_congr_left
    intro i hi
    cases h : args.ignore_unnamed i <;> simp [h]
  · simp

/-- C10: for every positional record the debug-formatting capability always
ends the tuple formatter with the exhaustive finish and never emits the
non-exhaustive finish, no matter which fields are ignored; a unit record
writes the bare type name, with no finish of either kind. -/
theorem implDebug_unnamed_always_exhaustive (n : String) (len : Nat)
    (args : autoimpl.ImplArgs) :
    (∃ pre, autoimpl.ImplDebug.struct_items ⟨n, .unnamed len⟩ args
        = .debugTuple n (pre ++ [autoimpl.DebugCall.finishCall])
      ∧ autoimpl.DebugCall.finishNonExhaustive ∉ pre)
  ∧ autoimpl.ImplDebug.struct_items ⟨n, .unit⟩ args = .writeStr n := by
  constructor
  · refine ⟨autoimpl.debugUnnamedLoop args len, rfl, ?_⟩
    intro hmem
    simp only [autoimpl.debugUnnamedLoop, List.mem_map] at hmem
    obtain ⟨i, -, hi⟩ := hmem
    revert hi
    cases args.ignore_unnamed i <;> simp
  · rfl

/-- C1: the claim states that the no-expression default-construction path
renders every field from its own attached default expression or else the
generic default primitive — which the code does — AND that the constructor
is shaped per record kind (named initializers, positional initializers,
bare identifier).  The scope path of `default.rs` instead emits the braced
constructor for every shape: this theorem evaluates it at a tuple-struct
scope, where the body comes out as the braced form with nameless
initializers (invalid host-language syntax), and at a unit scope, where the
body is the braced form rather than the bare identifier. -/
theorem impl_default_no_expr_shape_bug :
    impl_default ⟨none, none, 0⟩ 0
        ⟨"Foo", ⟨0, none⟩,
         .structItem (.unnamed ⟨[⟨[], .inherited, none, false, 7, some 5⟩,
                                 ⟨[], .inherited, none, false, 8, none⟩], false⟩), []⟩
      = .ok ⟨"Foo", ⟨0, none⟩,
          .structItem (.unnamed ⟨[⟨[], .inherited, none, false, 7, none⟩,
                                  ⟨[], .inherited, none, false, 8, none⟩], false⟩),
          [⟨"Foo", ⟨0, none⟩, (none, none),
            .bracedCtor "Foo" [.explicitInit none 5, .defaultInit none]⟩]⟩
  ∧ impl_default ⟨none, none, 0⟩ 0 ⟨"Bar", ⟨0, none⟩, .structItem .unit, []⟩
      = .ok ⟨"Bar", ⟨0, none⟩, .structItem .unit,
          [⟨"Bar", ⟨0, none⟩, (none, none), .bracedCtor "Bar" []⟩]⟩ :=
  ⟨rfl, rfl⟩

/-- C2: for every invocation carrying an explicit expression, the emitted
default body is that expression verbatim, the scope item — its per-field
attached defaults included — is left untouched, and the per-field rendering
never runs. -/
theorem impl_default_explicit_expr_overrides (attr : ImplDefault) (sp : Nat)
    (scope : Scope) (e : Nat) (h : attr.expr = some e) :
    impl_default attr sp scope
      = .ok { scope with generated := scope.generated ++
          [{ ident := scope.ident, generics := scope.generics,
             wc := clause_to_toks attr.where_clause scope.generics.whereClause,
             body := .exprBody e }] } := by
  unfold impl_default
  rw [h]
  rfl

theorem impl_default_explicit_expr_overrides_witness :
    impl_default ⟨some 7, some 3, 0⟩ 0
        ⟨"Foo", ⟨0, some 2⟩,
         .structItem (.named ⟨[⟨[], .inherited, some "a", true, 7, some 5⟩], false⟩), []⟩
      = .ok ⟨"Foo", ⟨0, some 2⟩,
          .structItem (.named ⟨[⟨[], .inherited, some "a", true, 7, some 5⟩], false⟩),
          [⟨"Foo", ⟨0, some 2⟩, (some 3, some 2), .exprBody 7⟩]⟩ :=
  impl_default_explicit_expr_overrides ⟨some 7, some 3, 0⟩ 0 _ 7 rfl

/-- C7: expanded outside a declaration context, the handler with no
expression reports the usage error and emits no fragment regardless of the
item; with an expression it succeeds exactly on enum, struct, type-alias
and union items, generating from the expression and the declared identity
and generics alone, and reports an error with no fragment on every other
item kind. -/
theorem implDefault_expand_context_rules (wcl : Option Nat) (sp e : Nat)
    (item : Option Item) (i : String) (g : Generics) (d : Nat) :
    ImplDefault.expand ⟨none, wcl, sp⟩ item
      = { output := none, errors := ["invalid use outside of `impl_scope!` macro"] }
  ∧ (∀ it : Item,
      (it = .structItem i g ∨ it = .enumItem i g ∨ it = .typeItem i g ∨ it = .unionItem i g) →
      ImplDefault.expand ⟨some e, wcl, sp⟩ (some it)
        = { output := some ⟨i, g, clause_to_toks wcl g.whereClause, .exprBody e⟩,
            errors := [] })
  ∧ ImplDefault.expand ⟨some e, wcl, sp⟩ (some (.otherItem d))
      = { output := none,
          errors := ["default: only supports enum, struct, type alias and union items"] } := by
  refine ⟨rfl, ?_, rfl⟩
  rintro it (rfl | rfl | rfl | rfl) <;> rfl

theorem implDefault_expand_context_rules_witness :
    ImplDefault.expand ⟨some 5, none, 0⟩ (some (.typeItem "T" ⟨1, none⟩))
      = { output := some ⟨"T", ⟨1, none⟩, (none, none), .exprBody 5⟩, errors := [] } :=
  (implDefault_expand_context_rules none 0 5 none "T" ⟨1, none⟩ 0).2.1
    (.typeItem "T" ⟨1, none⟩) (Or.inr (Or.inr (Or.inl rfl)))

/-- C6: a field re-rendered while still carrying an unconsumed default
expression raises exactly the dangling-default diagnostic with the
impl_default hint, and its printed tokens are those of the same field
without the expression — neither the expression atom nor the assignment
token reaches the output. -/
theorem field_to_tokens_dangling_default (f : Field) (e : Nat)
    (h : f.assign = some e) :
    Field.to_tokens f
      = ((Field.to_tokens { f with assign := none }).1,
         [⟨"default value on `struct` field in output",
           some "did you mean to use the `#[impl_default]` attribute?"⟩])
  ∧ ∀ m : Nat, Tok.exprTok m ∉ (Field.to_tokens f).1 ∧ Tok.eq ∉ (Field.to_tokens f).1 := by
  constructor
  · simp [Field.to_tokens, h]
  · intro m
    constructor <;>
      (cases hv : f.vis <;> cases hi : f.ident <;> simp [Field.to_tokens, visToTokens, hv, hi])

theorem field_to_tokens_dangling_default_witness :
    Field.to_tokens ⟨[4], .pub_, some "a", true, 9, some 5⟩
      = ([Tok.attrTok 4, Tok.kwPub, Tok.identTok "a", Tok.colon, Tok.tyTok 9],
         [⟨"default value on `struct` field in output",
           some "did you mean to use the `#[impl_default]` attribute?"⟩])
  ∧ Tok.exprTok 5 ∉ (Field.to_tokens ⟨[4], .pub_, some "a", true, 9, some 5⟩).1 := by
  have h := field_to_tokens_dangling_default ⟨[4], .pub_, some "a", true, 9, some 5⟩ 5 rfl
  refine ⟨?_, (h.2 5).1⟩
  rw [h.1]
  rfl

/-- C8 counterexample: a leading where-clause followed by a positional
field list is rejected by data_struct — the same field list and
where-clause are accepted when the clause follows the fields (see the
amended theorem), so the rejection is due only to the leading position. -/
theorem data_struct_leading_where_positional_rejected :
    data_struct [Tok.kwWhere, Tok.wherePreds 0, Tok.parenGroup [Tok.tyTok 1], Tok.semi]
      = none := rfl

/-- C8 amended: the record-body parser accepts a leading where-clause for
the named and unit field shapes; for the positional shape a where-clause is
accepted only AFTER the field list, and a leading where-clause directly
followed by a parenthesized field list is rejected.  The clause content is
recorded as an opaque payload and passed through. -/
theorem data_struct_where_clause_placement (w : Nat) (innerN innerU rest : List Tok)
    (fsN fsU : List Field) (trN trU : Bool)
    (hn : parse_terminated true innerN = some (fsN, trN))
    (hu : parse_terminated false innerU = some (fsU, trU)) :
    data_struct (Tok.kwWhere :: Tok.wherePreds w :: Tok.braceGroup innerN :: rest)
      = some (some w, .named ⟨fsN, trN⟩, false, rest)
  ∧ data_struct (Tok.kwWhere :: Tok.wherePreds w :: Tok.semi :: rest)
      = some (some w, .unit, true, rest)
  ∧ data_struct (Tok.parenGroup innerU :: Tok.kwWhere :: Tok.wherePreds w :: Tok.semi :: rest)
      = some (some w, .unnamed ⟨fsU, trU⟩, true, rest)
  ∧ data_struct (Tok.kwWhere :: Tok.wherePreds w :: Tok.parenGroup innerU :: rest)
      = none := by
  refine ⟨?_, rfl, ?_, rfl⟩
  · show dataStructTail (some w) (Tok.braceGroup innerN :: rest) = _
    simp [dataStructTail, hn]
  · show dataStructTail none
        (Tok.parenGroup innerU :: Tok.kwWhere :: Tok.wherePreds w :: Tok.semi :: rest) = _
    simp [dataStructTail, hu]

theorem data_struct_where_clause_placement_witness :
    data_struct [Tok.kwWhere, Tok.wherePreds 3,
                 Tok.braceGroup [Tok.identTok "a", Tok.colon, Tok.tyTok 1]]
      = some (some 3,
          .named ⟨[⟨[], .inherited, some "a", true, 1, none⟩], false⟩, false, [])
  ∧ data_struct [Tok.parenGroup [Tok.tyTok 2], Tok.kwWhere, Tok.wherePreds 3, Tok.semi]
      = some (some 3,
          .unnamed ⟨[⟨[], .inherited, none, false, 2, none⟩], false⟩, true, []) := by
  have hn : parse_terminated true [Tok.identTok "a", Tok.colon, Tok.tyTok 1]
      = some ([⟨[], .inherited, some "a", true, 1, none⟩], false) :=
    parse_terminated_last rfl
  have hu : parse_terminated false [Tok.tyTok 2]
      = some ([⟨[], .inherited, none, false, 2, none⟩], false) :=
    parse_terminated_last rfl
  have h := data_struct_where_clause_placement 3 _ _ [] _ _ _ _ hn hu
  exact ⟨h.1, h.2.2.1⟩

/-- C9: for every well-formed field list whose fields carry no attached
default expression, parsing and re-rendering reproduces an equivalent field
list — re-parsing the rendered tokens returns exactly the same fields
(identical identifiers, identical type atoms, identical order, and the same
trailing-comma state), and rendering emits no diagnostic.  Stated for both
braced named lists and parenthesized positional lists; the unit shape has
no field list. -/
theorem fields_roundtrip_parse_print (tn tu : List Tok) (fn : FieldsNamed)
    (fu : FieldsUnnamed)
    (hn : FieldsNamed.parse tn = some (fn, []))
    (hu : FieldsUnnamed.parse tu = some (fu, []))
    (han : ∀ f ∈ fn.fields, f.assign = none)
    (hau : ∀ f ∈ fu.fields, f.assign = none) :
    ((fn.to_tokens).2 = [] ∧ FieldsNamed.parse (fn.to_tokens).1 = some (fn, []))
  ∧ ((fu.to_tokens).2 = [] ∧ FieldsUnnamed.parse (fu.to_tokens).1 = some (fu, [])) :=
  ⟨FieldsNamed_roundtrip hn han, FieldsUnnamed_roundtrip hu hau⟩

theorem fields_roundtrip_parse_print_witness :
    (FieldsNamed.parse
        ((FieldsNamed.to_tokens ⟨[⟨[], .inherited, some "a", true, 1, none⟩], false⟩).1)
      = some (⟨[⟨[], .inherited, some "a", true, 1, none⟩], false⟩, []))
  ∧ (FieldsUnnamed.parse
        ((FieldsUnnamed.to_tokens ⟨[⟨[], .inherited, none, false, 2, none⟩], false⟩).1)
      = some (⟨[⟨[], .inherited, none, false, 2, none⟩], false⟩, [])) := by
  have h1 : parse_terminated true [Tok.identTok "a", Tok.colon, Tok.tyTok 1]
      = some ([⟨[], .inherited, some "a", true, 1, none⟩], false) :=
    parse_terminated_last rfl
  have h2 : parse_terminated false [Tok.tyTok 2]
      = some ([⟨[], .inherited, none, false, 2, none⟩], false) :=
    parse_terminated_last rfl
  have hn : FieldsNamed.parse [Tok.braceGroup [Tok.identTok "a", Tok.colon, Tok.tyTok 1]]
      = some (⟨[⟨[], .inherited, some "a", true, 1, none⟩], false⟩, []) := by
    simp [FieldsNamed.parse, h1]
  have hu : FieldsUnnamed.parse [Tok.parenGroup [Tok.tyTok 2]]
      = some (⟨[⟨[], .inherited, none, false, 2, none⟩], false⟩, []) := by
    simp [FieldsUnnamed.parse, h2]
  have han : ∀ f ∈ [(⟨[], .inherited, some "a", true, 1, none⟩ : Field)], f.assign = none := by
    intro f hf
    simp only [List.mem_singleton] at hf
    subst hf
    rfl
  have hau : ∀ f ∈ [(⟨[], .inherited, none, false, 2, none⟩ : Field)], f.assign = none := by
    intro f hf
    simp only [List.mem_singleton] at hf
    subst hf
    rfl
  have h := fields_roundtrip_parse_print _ _ _ _ hn hu han hau
  exact ⟨h.1.2, h.2.2⟩
